import Mathlib

/-!
Shallow embedding of the VUPlayer media-library core (fork
`ScottsplaysSus/VUPlayer-Scottsplays-Fork`).

The repository sources contain `Library.h` (the declaration of the `Library`
class), `HandlerFFmpeg.cpp` and `WndList.cpp`.  The implementation file
`Library.cpp` is not among the sources, so the `Library` operations below are
modelled from the specification (spec.md sections 3, 4 and 7), keeping the
names and signatures of `Library.h`.  The `HandlerFFmpeg` and `WndList`
fragments are translated directly from their `.cpp` sources.

Machine integers (`long long` timestamps, `long` track/year values) are
modelled as `Int`; the parse path of `std::stol` checks the 32-bit `long`
range explicitly where the source's exception behaviour depends on it.
-/

/-- Modelled from the spec: the normalized tag set read/written by TagCodec
(spec sections 2 and 6; `Library.cpp` with the concrete `Tags` handling is
absent from the sources).  The editable tag fields are those of the spec's
data model: artist, title, album, genre, year, comment, track number and
version; `none` means the field is absent from the tag set. -/
structure Tags where
  artist : Option String := none
  title : Option String := none
  album : Option String := none
  genre : Option String := none
  year : Option Int := none
  comment : Option String := none
  track : Option Int := none
  version : Option String := none
deriving DecidableEq

/-- Modelled from the spec: the source-kind discriminator of a media record
(spec section 3): ordinary file, CD-audio track, or network stream. -/
inductive Source
  | file
  | cdda
  | stream
deriving DecidableEq

/-- Modelled from the spec: `MediaRecord` (spec section 3); `Library.cpp`
(and `MediaInfo.h`) are absent from the sources.  Replay-gain values, which
the spec leaves as optional floating values, are abstracted to optional
integers (no claim computes with them). -/
structure MediaRecord where
  filename : String
  filetime : Int
  filesize : Int
  duration : Int
  sampleRate : Int
  bitsPerSample : Int
  channels : Int
  artist : String
  title : String
  album : String
  genre : String
  year : Int
  comment : String
  track : Int
  version : String
  gainTrack : Option Int
  gainAlbum : Option Int
  artworkID : Option String
  source : Source
  bitrate : Option Int
deriving DecidableEq

/-- Modelled from the spec: one row of the artwork table (spec section 6):
a content identifier and the raw image bytes (bytes as `Nat`s). -/
structure ArtworkRow where
  id : String
  image : List Nat
deriving DecidableEq

/-- Modelled from the spec: the MetadataStore (spec section 2): the media
table (one row per path) and the artwork table.  The CD-audio table is not
touched by any claim and is omitted. -/
structure MetadataStore where
  media : List MediaRecord
  artwork : List ArtworkRow
deriving DecidableEq

/-- Modelled from the spec: change notifications produced for the UI layer
(spec section 6): update events carry the previous and new record, removal
events carry the removed record. -/
inductive Notification
  | updated (previous current : MediaRecord)
  | removed (record : MediaRecord)
deriving DecidableEq

/-- Modelled from the spec: the external collaborators consumed by the
Library (spec section 6): `FileProbe.probe` returns modified-time and size
or is unavailable; `scan` is the DecoderProbe plus TagCodec rebuild, which
on success yields the record's metadata (the Library keys it by path and
stamps the probed file attributes); `tagWrite` is the fallible TagCodec
write. -/
structure Env where
  probe : String → Option (Int × Int)
  scan : String → Option MediaRecord
  tagWrite : String → Tags → Bool

/-- Look up the media row whose path equals `p` (first match). -/
def findRecord : List MediaRecord → String → Option MediaRecord
  | [], _ => none
  | r :: rs, p => if r.filename = p then some r else findRecord rs p

/-- Replace the row keyed by `r.filename`, or append `r` if absent
(the upsert used when a rebuilt record is written back). -/
def upsertRow : List MediaRecord → MediaRecord → List MediaRecord
  | [], r => [r]
  | x :: xs, r => if x.filename = r.filename then r :: xs else x :: upsertRow xs r

/-- Delete every row keyed by `p` (the SQL delete on the path key). -/
def removeRows : List MediaRecord → String → List MediaRecord
  | [], _ => []
  | r :: rs, p => if r.filename = p then removeRows rs p else r :: removeRows rs p

/-- Association-list lookup on string keys. -/
def assocLookup {α : Type} : List (String × α) → String → Option α
  | [], _ => none
  | (k, v) :: rest, key => if k = key then some v else assocLookup rest key

/-- Association-list insert-or-assign on string keys (`std::map` semantics:
the existing entry for the key is overwritten). -/
def assocUpsert {α : Type} : List (String × α) → String → α → List (String × α)
  | [], key, v => [(key, v)]
  | (k, w) :: rest, key, v =>
    if k = key then (key, v) :: rest else (k, w) :: assocUpsert rest key v

/-- Association-list erase on string keys. -/
def assocErase {α : Type} : List (String × α) → String → List (String × α)
  | [], _ => []
  | (k, w) :: rest, key =>
    if k = key then assocErase rest key else (k, w) :: assocErase rest key

namespace Library

/-- Modelled from the spec: the in-process Library state (`Library.cpp` is
absent): the MetadataStore it owns, the pending-tag-write queue
(`m_PendingTags` of `Library.h`), and the per-path last-write-attempt time
map (`m_TagsWritten` of `Library.h`). -/
structure LibraryState where
  store : MetadataStore
  pendingTags : List (String × Tags)
  tagsWritten : List (String × Int)
deriving DecidableEq

/-- Result of one `GetMediaInfo` call: the returned record (if any), whether
it is current, the resulting store, the number of store-write operations
performed, and the notifications emitted. -/
structure GetResult where
  info : Option MediaRecord
  current : Bool
  store : MetadataStore
  storeWrites : Nat
  notifications : List Notification
deriving DecidableEq

/-- Modelled from the spec: `Library::GetMediaInfo` (spec section 4.1;
`Library.cpp` is absent, only the declaration at `Library.h:54` is in the
sources).  Look up the record for the path; when `checkFileAttributes`,
probe the file and treat a mismatch or probe failure as stale; when stale
or absent and `scanMedia`, rebuild via DecoderProbe/TagCodec and upsert,
notifying on change; when the file cannot be opened, delete the record and
notify removal if `removeMissing`, else return the stale record marked not
current. -/
def GetMediaInfo (env : Env) (s : MetadataStore) (path : String)
    (checkFileAttributes scanMedia sendNotification removeMissing : Bool) : GetResult :=
  match findRecord s.media path with
  | some rec =>
    if checkFileAttributes then
      match env.probe path with
      | some (t, sz) =>
        if (t, sz) = (rec.filetime, rec.filesize) then
          { info := some rec, current := true, store := s, storeWrites := 0,
            notifications := [] }
        else if scanMedia then
          match env.scan path with
          | some data =>
            let newRec := { data with filename := path, filetime := t, filesize := sz }
            { info := some newRec, current := true,
              store := { s with media := upsertRow s.media newRec }, storeWrites := 1,
              notifications :=
                if sendNotification then [Notification.updated rec newRec] else [] }
          | none =>
            if removeMissing then
              { info := none, current := false,
                store := { s with media := removeRows s.media path }, storeWrites := 1,
                notifications := [Notification.removed rec] }
            else
              { info := some rec, current := false, store := s, storeWrites := 0,
                notifications := [] }
        else
          { info := some rec, current := false, store := s, storeWrites := 0,
            notifications := [] }
      | none =>
        if removeMissing then
          { info := none, current := false,
            store := { s with media := removeRows s.media path }, storeWrites := 1,
            notifications := [Notification.removed rec] }
        else
          { info := some rec, current := false, store := s, storeWrites := 0,
            notifications := [] }
    else
      { info := some rec, current := true, store := s, storeWrites := 0,
        notifications := [] }
  | none =>
    if scanMedia then
      match env.probe path, env.scan path with
      | some (t, sz), some data =>
        let newRec := { data with filename := path, filetime := t, filesize := sz }
        { info := some newRec, current := true,
          store := { s with media := upsertRow s.media newRec }, storeWrites := 1,
          notifications :=
            if sendNotification then [Notification.updated newRec newRec] else [] }
      | _, _ =>
        { info := none, current := false, store := s, storeWrites := 0,
          notifications := [] }
    else
      { info := none, current := false, store := s, storeWrites := 0,
        notifications := [] }

/-- Modelled from the spec: the diff of two records over the editable tag
fields (spec section 4.2: "diff previous vs updated"); a field is present in
the result exactly when it changed, carrying the updated value. -/
def diffTags (previous updated : MediaRecord) : Tags :=
  { artist := if previous.artist = updated.artist then none else some updated.artist,
    title := if previous.title = updated.title then none else some updated.title,
    album := if previous.album = updated.album then none else some updated.album,
    genre := if previous.genre = updated.genre then none else some updated.genre,
    year := if previous.year = updated.year then none else some updated.year,
    comment := if previous.comment = updated.comment then none else some updated.comment,
    track := if previous.track = updated.track then none else some updated.track,
    version := if previous.version = updated.version then none else some updated.version }

/-- Modelled from the spec: apply a tag set to a record, overwriting exactly
the fields present in the tag set (the per-column store update of spec
section 4.2). -/
def applyTags (r : MediaRecord) (t : Tags) : MediaRecord :=
  { r with
    artist := t.artist.getD r.artist,
    title := t.title.getD r.title,
    album := t.album.getD r.album,
    genre := t.genre.getD r.genre,
    year := t.year.getD r.year,
    comment := t.comment.getD r.comment,
    track := t.track.getD r.track,
    version := t.version.getD r.version }

/-- The empty tag set (no fields present). -/
def emptyTags : Tags := {}

/-- Modelled from the spec: `Library::AddPendingTags` (declaration at
`Library.h:205`; `Library.cpp` absent): store or overwrite the queued edit
for the filename (spec section 4.4, last write wins). -/
def AddPendingTags (st : LibraryState) (filename : String) (tags : Tags) : LibraryState :=
  { st with pendingTags := assocUpsert st.pendingTags filename tags }

/-- Modelled from the spec: `Library::GetPendingTags` (declaration at
`Library.h:209`; `Library.cpp` absent): return the queued edit for the
filename, if any. -/
def GetPendingTags (st : LibraryState) (filename : String) : Option Tags :=
  assocLookup st.pendingTags filename

/-- Modelled from the spec: `Library::SetRecentlyWrittenTag` (declaration at
`Library.h:212`; `Library.cpp` absent): record `now` as the time of the last
tag-write attempt for the filename. -/
def SetRecentlyWrittenTag (st : LibraryState) (filename : String) (now : Int) : LibraryState :=
  { st with tagsWritten := assocUpsert st.tagsWritten filename now }

/-- Modelled from the spec: `Library::HasRecentlyWrittenTag` (declaration at
`Library.h:144`; `Library.cpp` absent): true when the last recorded attempt
for the filename is less than the fixed debounce `interval` before `now`.
The spec leaves the interval value unspecified (section 9), so it is a
parameter. -/
def HasRecentlyWrittenTag (st : LibraryState) (filename : String)
    (now interval : Int) : Bool :=
  match assocLookup st.tagsWritten filename with
  | some last => decide (now - last < interval)
  | none => false

/-- Modelled from the spec: `Library::UpdateMediaTags` (spec section 4.2;
`Library.cpp` absent, declaration at `Library.h:59`): diff the two records;
write only the changed tag fields to the store row for the path; record the
write-attempt time regardless of outcome; attempt the TagCodec file write,
and on failure leave the intended tag values in the pending queue (on
success the queued edit for the path is cleared). -/
def UpdateMediaTags (env : Env) (st : LibraryState) (now : Int)
    (previous updated : MediaRecord) : LibraryState :=
  let changed := diffTags previous updated
  if changed = emptyTags then st
  else
    let path := updated.filename
    let storeUpdated :=
      { st.store with
        media :=
          match findRecord st.store.media path with
          | some row => upsertRow st.store.media (applyTags row changed)
          | none => st.store.media }
    let st1 : LibraryState := { st with store := storeUpdated }
    let st2 := SetRecentlyWrittenTag st1 path now
    if env.tagWrite path changed then
      { st2 with pendingTags := assocErase st2.pendingTags path }
    else
      AddPendingTags st2 path changed

/-- Modelled from the spec: the content identifier of an artwork image
(spec section 3: a deterministic digest of the image bytes, used both as
dedup key and as the external artwork ID).  Modelled as the decimal
rendering of an injective byte fold; the claims use only its determinism. -/
def artworkId (image : List Nat) : String :=
  toString (image.foldl (fun h b => h * 256 + b % 256 + 1) 1)

/-- Modelled from the spec: `Library::FindArtwork` (declaration at
`Library.h:193`; `Library.cpp` absent): scan the artwork table for a row
whose identifier matches the image's content identifier and whose bytes
match exactly, returning its ID. -/
def FindArtwork : List ArtworkRow → List Nat → Option String
  | [], _ => none
  | row :: rest, image =>
    if row.id = artworkId image ∧ row.image = image then some row.id
    else FindArtwork rest image

/-- Modelled from the spec: `Library::AddArtwork` (spec section 4.3;
`Library.cpp` absent, declaration at `Library.h:69`): search before insert;
return the existing ID on a byte-exact match, else insert a new row keyed
by the content identifier and return that ID. -/
def AddArtwork (s : MetadataStore) (image : List Nat) : String × MetadataStore :=
  match FindArtwork s.artwork image with
  | some existingId => (existingId, s)
  | none =>
    let id := artworkId image
    (id, { s with artwork := s.artwork ++ [{ id := id, image := image }] })

/-- Modelled from the spec: `Library::RemoveFromLibrary` (spec section 4.5;
`Library.cpp` absent, declaration at `Library.h:124`): delete the row
matching the record's path, returning whether a row was actually removed. -/
def RemoveFromLibrary (s : MetadataStore) (rec : MediaRecord) : Bool × MetadataStore :=
  match findRecord s.media rec.filename with
  | some _ => (true, { s with media := removeRows s.media rec.filename })
  | none => (false, s)

end Library

namespace HandlerFFmpeg

/-- The FFmpeg decoder object produced by a successful `DecoderFFmpeg`
construction (`HandlerFFmpeg.cpp:37`); its internals are opaque to
`OpenDecoder`, only the constructed value matters here. -/
structure DecoderFFmpeg where
  filename : String
deriving DecidableEq

/-- Outcome of running the `DecoderFFmpeg` constructor
(`HandlerFFmpeg.cpp:37`): either a constructed decoder, or a thrown
`std::runtime_error`. -/
inductive CtorResult
  | ok (d : DecoderFFmpeg)
  | throwsRuntimeError
deriving DecidableEq

/-- `HandlerFFmpeg::OpenDecoder` (`HandlerFFmpeg.cpp:33-42`): start from a
null pointer, construct `DecoderFFmpeg(filename)` inside a try block that
catches `std::runtime_error`, and wrap whatever pointer results.  The result
type `Except Unit (Option DecoderFFmpeg)` makes a propagated exception
(`Except.error`) expressible; the caught exception leaves the pointer null,
so the function returns `Except.ok none`. -/
def OpenDecoder (construct : String → CtorResult) (filename : String) :
    Except Unit (Option DecoderFFmpeg) :=
  match construct filename with
  | CtorResult.ok d => Except.ok (some d)
  | CtorResult.throwsRuntimeError => Except.ok none

end HandlerFFmpeg

namespace WndList

/-- Playlist column of the edited sub-item (`WndList.cpp:1291`); `other`
stands for every column not handled by the switch. -/
inductive PlaylistColumn
  | album
  | artist
  | genre
  | title
  | track
  | year
  | other
deriving DecidableEq

/-- `Library::Column` values assigned by `WndList::OnEndLabelEdit`
(`WndList.cpp:1290`), starting from `_Undefined`. -/
inductive LibraryColumn
  | album
  | artist
  | genre
  | title
  | track
  | year
  | undefinedColumn
deriving DecidableEq

/-- Whitespace recognized by the `std::stol` prefix scan (C `isspace`). -/
def isSpaceChar (c : Char) : Bool :=
  c = ' ' || c = '\t' || c = '\n' || c = '\r' || c = '\x0b' || c = '\x0c'

/-- Drop the leading whitespace of the `std::stol` input. -/
def dropSpaces : List Char → List Char
  | [] => []
  | c :: cs => if isSpaceChar c then dropSpaces cs else c :: cs

/-- Consume an optional sign, returning whether the value is negated. -/
def signSplit : List Char → Bool × List Char
  | [] => (false, [])
  | c :: cs =>
    if c = '-' then (true, cs)
    else if c = '+' then (false, cs)
    else (false, c :: cs)

/-- The maximal run of decimal digits at the head of the input, as values. -/
def leadingDigits : List Char → List Nat
  | [] => []
  | c :: cs => if c.isDigit then (c.toNat - 48) :: leadingDigits cs else []

/-- Value of a digit run read most-significant first. -/
def digitsVal (ds : List Nat) : Int :=
  ds.foldl (fun a d => a * 10 + Int.ofNat d) 0

/-- `std::stol(text)` as called at `WndList.cpp:1316` and `WndList.cpp:1326`
(base 10): skip whitespace, take an optional sign and a digit run; `none`
models a thrown exception — `std::invalid_argument` when no digits were
consumed, `std::out_of_range` when the value exceeds the 32-bit `long` of
the target platform. -/
def stol (s : String) : Option Int :=
  let cs := dropSpaces s.data
  let (neg, rest) := signSplit cs
  let ds := leadingDigits rest
  if ds = [] then none
  else
    let v := if neg then -(digitsVal ds) else digitsVal ds
    if v < -2147483648 ∨ 2147483647 < v then none else some v

/-- What the edited branch of `WndList::OnEndLabelEdit` produces: the media
info written into `playlistItem.Info`, the `Library::Column` selected, and
whether the flow reached the `UpdateMediaTags` call (`WndList.cpp:1340`,
guarded by the column not being `_Undefined`). -/
structure LabelEditOutcome where
  info : MediaRecord
  column : LibraryColumn
  updateMediaTagsCalled : Bool
deriving DecidableEq

/-- The column switch of `WndList::OnEndLabelEdit` (`WndList.cpp:1292-1336`)
followed by the `_Undefined` guard (`WndList.cpp:1337`): text columns store
the text; the Track and Year cases initialize the number to 0, overwrite it
with `std::stol(text)` inside a try block whose `catch (...)` swallows any
exception, and store the result. -/
def OnEndLabelEdit (info : MediaRecord) (col : PlaylistColumn) (text : String) :
    LabelEditOutcome :=
  match col with
  | PlaylistColumn.album =>
    { info := { info with album := text }, column := LibraryColumn.album,
      updateMediaTagsCalled := true }
  | PlaylistColumn.artist =>
    { info := { info with artist := text }, column := LibraryColumn.artist,
      updateMediaTagsCalled := true }
  | PlaylistColumn.genre =>
    { info := { info with genre := text }, column := LibraryColumn.genre,
      updateMediaTagsCalled := true }
  | PlaylistColumn.title =>
    { info := { info with title := text }, column := LibraryColumn.title,
      updateMediaTagsCalled := true }
  | PlaylistColumn.track =>
    { info := { info with track := (stol text).getD 0 }, column := LibraryColumn.track,
      updateMediaTagsCalled := true }
  | PlaylistColumn.year =>
    { info := { info with year := (stol text).getD 0 }, column := LibraryColumn.year,
      updateMediaTagsCalled := true }
  | PlaylistColumn.other =>
    { info := info, column := LibraryColumn.undefinedColumn,
      updateMediaTagsCalled := false }

end WndList

namespace Library

/-- Well-formedness of the artwork table: every row's identifier is the
content identifier of its bytes (true of every row `AddArtwork` inserts). -/
def artworkWF (rows : List ArtworkRow) : Prop :=
  ∀ row ∈ rows, row.id = artworkId row.image

/-- Number of stored copies of a given byte sequence in the artwork table. -/
def countImage : List ArtworkRow → List Nat → Nat
  | [], _ => 0
  | row :: rest, image => (if row.image = image then 1 else 0) + countImage rest image

/-- Run a sequence of `AddPendingTags` calls, in order. -/
def addAllPendingTags (st : LibraryState) (calls : List (String × Tags)) : LibraryState :=
  calls.foldl (fun acc c => AddPendingTags acc c.1 c.2) st

/-- The tag set of the most recent call for `path` in a call sequence. -/
def lastTagsFor (path : String) : List (String × Tags) → Option Tags
  | [] => none
  | c :: cs =>
    match lastTagsFor path cs with
    | some t => some t
    | none => if c.1 = path then some c.2 else none

/-- The first option when present, the second otherwise. -/
def orTake (a b : Option Tags) : Option Tags :=
  match a with
  | some t => some t
  | none => b

/-- An association list holds at most one entry per key. -/
def keysUnique {α : Type} : List (String × α) → Prop
  | [] => True
  | (k, _) :: rest => assocLookup rest k = none ∧ keysUnique rest

/-- The media table holds at most one row per path (spec section 3
invariant: the path is a unique key). -/
def pathsUnique : List MediaRecord → Prop
  | [] => True
  | r :: rs => findRecord rs r.filename = none ∧ pathsUnique rs

end Library

/-- A concrete media record used by the concrete-input witnesses. -/
def sampleRecord : MediaRecord :=
  { filename := "C:/a.mp3", filetime := 10, filesize := 20, duration := 30,
    sampleRate := 44100, bitsPerSample := 16, channels := 2,
    artist := "art", title := "one", album := "al", genre := "g",
    year := 2020, comment := "", track := 1, version := "",
    gainTrack := none, gainAlbum := none, artworkID := none,
    source := Source.file, bitrate := none }

/-- The sample record with an edited title. -/
def sampleUpdated : MediaRecord := { sampleRecord with title := "two" }

/-- A concrete environment whose probe succeeds, whose decoder scan fails
and whose tag write fails, used by the concrete-input witnesses. -/
def failEnv : Env :=
  { probe := fun _ => some (1, 2), scan := fun _ => none, tagWrite := fun _ _ => false }

/-- A concrete Library state holding the sample record and nothing pending. -/
def sampleState : Library.LibraryState :=
  { store := { media := [sampleRecord], artwork := [] },
    pendingTags := [], tagsWritten := [] }

/-- A concrete tag set (title edit) used by the concrete-input witnesses. -/
def tagsA : Tags := { title := some "one" }

/-- A second concrete tag set used by the concrete-input witnesses. -/
def tagsB : Tags := { title := some "two" }

theorem findRecord_filename {p : String} {r : MediaRecord} :
    ∀ rows : List MediaRecord, findRecord rows p = some r → r.filename = p := by
  intro rows
  induction rows with
  | nil => intro h; simp [findRecord] at h
  | cons x xs ih =>
    intro h
    simp only [findRecord] at h
    by_cases hx : x.filename = p
    · rw [if_pos hx] at h
      injection h with h
      exact h ▸ hx
    · rw [if_neg hx] at h
      exact ih h

theorem findRecord_upsertRow (rows : List MediaRecord) (r : MediaRecord) (p : String)
    (hname : r.filename = p) : findRecord (upsertRow rows r) p = some r := by
  induction rows with
  | nil => simp [upsertRow, findRecord, hname]
  | cons x xs ih =>
    by_cases hx : x.filename = r.filename
    · simp [upsertRow, hx, findRecord, hname]
    · have hxp : ¬ x.filename = p := fun hc => hx (hname ▸ hc)
      simp [upsertRow, hx, findRecord, hxp, ih]

theorem findRecord_removeRows (rows : List MediaRecord) (p : String) :
    findRecord (removeRows rows p) p = none := by
  induction rows with
  | nil => simp [removeRows, findRecord]
  | cons x xs ih =>
    by_cases hx : x.filename = p
    · simp [removeRows, hx, ih]
    · simp [removeRows, hx, findRecord, ih]

theorem removeRows_of_findRecord_none (rows : List MediaRecord) (p : String)
    (h : findRecord rows p = none) : removeRows rows p = rows := by
  induction rows with
  | nil => simp [removeRows]
  | cons x xs ih =>
    simp only [findRecord] at h
    by_cases hx : x.filename = p
    · rw [if_pos hx] at h
      exact absurd h (by simp)
    · rw [if_neg hx] at h
      simp [removeRows, hx, ih h]

theorem removeRows_length (rows : List MediaRecord) (p : String) (r : MediaRecord)
    (hu : Library.pathsUnique rows) (h : findRecord rows p = some r) :
    (removeRows rows p).length + 1 = rows.length := by
  induction rows with
  | nil => simp [findRecord] at h
  | cons x xs ih =>
    simp only [Library.pathsUnique] at hu
    obtain ⟨hx1, hx2⟩ := hu
    simp only [findRecord] at h
    by_cases hx : x.filename = p
    · rw [if_pos hx] at h
      have hnone : findRecord xs p = none := hx ▸ hx1
      simp [removeRows, hx, removeRows_of_findRecord_none xs p hnone]
    · rw [if_neg hx] at h
      simp [removeRows, hx, List.length_cons, ih hx2 h]

theorem assocLookup_assocUpsert_self {α : Type} (l : List (String × α)) (key : String) (v : α) :
    assocLookup (assocUpsert l key v) key = some v := by
  induction l with
  | nil => simp [assocUpsert, assocLookup]
  | cons kv rest ih =>
    obtain ⟨k, w⟩ := kv
    by_cases hk : k = key
    · simp [assocUpsert, hk, assocLookup]
    · simp [assocUpsert, hk, assocLookup, ih]

theorem assocLookup_assocUpsert_ne {α : Type} (l : List (String × α)) (key k' : String) (v : α)
    (hne : k' ≠ key) :
    assocLookup (assocUpsert l key v) k' = assocLookup l k' := by
  induction l with
  | nil => simp [assocUpsert, assocLookup, Ne.symm hne]
  | cons kv rest ih =>
    obtain ⟨k, w⟩ := kv
    by_cases hk : k = key
    · subst hk
      simp [assocUpsert, assocLookup, Ne.symm hne]
    · simp [assocUpsert, hk, assocLookup, ih]

theorem keysUnique_assocUpsert {α : Type} (l : List (String × α)) (key : String) (v : α)
    (hu : Library.keysUnique l) : Library.keysUnique (assocUpsert l key v) := by
  induction l with
  | nil => simp [assocUpsert, Library.keysUnique, assocLookup]
  | cons kv rest ih =>
    obtain ⟨k, w⟩ := kv
    simp only [Library.keysUnique] at hu
    obtain ⟨h1, h2⟩ := hu
    by_cases hk : k = key
    · subst hk
      simp only [assocUpsert, if_pos rfl, Library.keysUnique]
      exact ⟨h1, h2⟩
    · simp only [assocUpsert, if_neg hk, Library.keysUnique]
      exact ⟨by rw [assocLookup_assocUpsert_ne rest key k v hk]; exact h1, ih h2⟩

theorem findArtwork_append_new (rows : List ArtworkRow) (image : List Nat)
    (h : Library.FindArtwork rows image = none) :
    Library.FindArtwork (rows ++ [{ id := Library.artworkId image, image := image }]) image
      = some (Library.artworkId image) := by
  induction rows with
  | nil => simp [Library.FindArtwork]
  | cons row rest ih =>
    rw [List.cons_append]
    simp only [Library.FindArtwork] at h ⊢
    by_cases hc : row.id = Library.artworkId image ∧ row.image = image
    · rw [if_pos hc] at h
      exact absurd h (by simp)
    · rw [if_neg hc] at h
      rw [if_neg hc]
      exact ih h

theorem countImage_append (a b : List ArtworkRow) (image : List Nat) :
    Library.countImage (a ++ b) image =
      Library.countImage a image + Library.countImage b image := by
  induction a with
  | nil => simp [Library.countImage]
  | cons row rest ih =>
    simp [Library.countImage, ih, Nat.add_assoc]

theorem countImage_zero_of_findArtwork_none (rows : List ArtworkRow) (image : List Nat)
    (hwf : Library.artworkWF rows) (h : Library.FindArtwork rows image = none) :
    Library.countImage rows image = 0 := by
  induction rows with
  | nil => simp [Library.countImage]
  | cons row rest ih =>
    simp only [Library.FindArtwork] at h
    have hwrow : row.id = Library.artworkId row.image := hwf row (by simp)
    have hwrest : Library.artworkWF rest := fun r hr => hwf r (by simp [hr])
    by_cases hc : row.id = Library.artworkId image ∧ row.image = image
    · rw [if_pos hc] at h
      exact absurd h (by simp)
    · rw [if_neg hc] at h
      have himg : ¬ row.image = image := by
        intro he
        exact hc ⟨by rw [hwrow, he], he⟩
      simp [Library.countImage, himg, ih hwrest h]

theorem getPendingTags_addAllPendingTags (calls : List (String × Tags)) :
    ∀ (st : Library.LibraryState) (path : String),
      Library.GetPendingTags (Library.addAllPendingTags st calls) path =
        Library.orTake (Library.lastTagsFor path calls) (Library.GetPendingTags st path) := by
  induction calls with
  | nil =>
    intro st path
    simp [Library.addAllPendingTags, Library.lastTagsFor, Library.orTake]
  | cons c cs ih =>
    intro st path
    have hstep : Library.addAllPendingTags st (c :: cs) =
        Library.addAllPendingTags (Library.AddPendingTags st c.1 c.2) cs := rfl
    rw [hstep, ih]
    simp only [Library.lastTagsFor]
    cases hl : Library.lastTagsFor path cs with
    | some t => simp [Library.orTake]
    | none =>
      simp only [Library.orTake]
      by_cases hc : c.1 = path
      · subst hc
        simp [Library.GetPendingTags, Library.AddPendingTags, assocLookup_assocUpsert_self]
      · simp [hc, Library.GetPendingTags, Library.AddPendingTags,
          assocLookup_assocUpsert_ne _ _ _ _ (Ne.symm hc)]

theorem keysUnique_addAllPendingTags (calls : List (String × Tags)) :
    ∀ st : Library.LibraryState, Library.keysUnique st.pendingTags →
      Library.keysUnique (Library.addAllPendingTags st calls).pendingTags := by
  induction calls with
  | nil =>
    intro st hu
    exact hu
  | cons c cs ih =>
    intro st hu
    have hstep : Library.addAllPendingTags st (c :: cs) =
        Library.addAllPendingTags (Library.AddPendingTags st c.1 c.2) cs := rfl
    rw [hstep]
    exact ih _ (keysUnique_assocUpsert st.pendingTags c.1 c.2 hu)

/-- C5: `SetRecentlyWrittenTag(filename)` followed immediately by
`HasRecentlyWrittenTag(filename)` returns true, and once the fixed debounce
interval has elapsed since the last recorded attempt (on a simulated clock)
`HasRecentlyWrittenTag(filename)` returns false, so a tag write for a given
path is never re-attempted within the debounce window of the previous
attempt, regardless of whether that attempt succeeded. -/
theorem Library.recentlyWrittenTag_debounce
    (st : Library.LibraryState) (filename : String) (t later interval : Int)
    (hpos : 0 < interval) (helapsed : interval ≤ later - t) :
    Library.HasRecentlyWrittenTag (Library.SetRecentlyWrittenTag st filename t)
        filename t interval = true ∧
    Library.HasRecentlyWrittenTag (Library.SetRecentlyWrittenTag st filename t)
        filename later interval = false := by
  constructor
  · simp only [Library.HasRecentlyWrittenTag, Library.SetRecentlyWrittenTag,
      assocLookup_assocUpsert_self]
    simp only [decide_eq_true_eq]
    omega
  · simp only [Library.HasRecentlyWrittenTag, Library.SetRecentlyWrittenTag,
      assocLookup_assocUpsert_self]
    simp only [decide_eq_false_iff_not]
    omega

/-- Concrete instance of the C5 debounce theorem: attempt recorded at time 3,
interval 10, queried at times 3 and 13. -/
theorem Library.recentlyWrittenTag_debounce_witness :
    Library.HasRecentlyWrittenTag (Library.SetRecentlyWrittenTag sampleState "C:/a.mp3" 3)
        "C:/a.mp3" 3 10 = true ∧
    Library.HasRecentlyWrittenTag (Library.SetRecentlyWrittenTag sampleState "C:/a.mp3" 3)
        "C:/a.mp3" 13 10 = false :=
  Library.recentlyWrittenTag_debounce sampleState "C:/a.mp3" 3 13 10
    (by decide) (by decide)

/-- C8: `Library::RemoveFromLibrary` returns true exactly when a matching
row existed; on a record with no matching row it returns false and leaves
the store untouched; on a match the row is gone and, under the spec's
unique-path invariant, the row count drops by exactly one. -/
theorem Library.removeFromLibrary_found_iff
    (s : MetadataStore) (rec : MediaRecord)
    (hu : Library.pathsUnique s.media) :
    ((Library.RemoveFromLibrary s rec).1 = true ↔
      (findRecord s.media rec.filename).isSome = true) ∧
    ((Library.RemoveFromLibrary s rec).1 = false → (Library.RemoveFromLibrary s rec).2 = s) ∧
    ((Library.RemoveFromLibrary s rec).1 = true →
      findRecord (Library.RemoveFromLibrary s rec).2.media rec.filename = none ∧
      (Library.RemoveFromLibrary s rec).2.media.length + 1 = s.media.length) := by
  cases hfind : findRecord s.media rec.filename with
  | none =>
    refine ⟨by simp [Library.RemoveFromLibrary, hfind], ?_, ?_⟩
    · intro _
      simp [Library.RemoveFromLibrary, hfind]
    · intro hcontra
      simp [Library.RemoveFromLibrary, hfind] at hcontra
  | some r =>
    refine ⟨by simp [Library.RemoveFromLibrary, hfind], ?_, ?_⟩
    · intro hcontra
      simp [Library.RemoveFromLibrary, hfind] at hcontra
    · intro _
      refine ⟨?_, ?_⟩
      · simp [Library.RemoveFromLibrary, hfind, findRecord_removeRows]
      · simp only [Library.RemoveFromLibrary, hfind]
        exact removeRows_length s.media rec.filename r hu hfind

/-- Concrete instance of the C8 theorem: a one-row store with the sample
record, removed via the sample record itself. -/
theorem Library.removeFromLibrary_found_iff_witness :
    ((Library.RemoveFromLibrary sampleState.store sampleRecord).1 = true ↔
      (findRecord sampleState.store.media sampleRecord.filename).isSome = true) ∧
    ((Library.RemoveFromLibrary sampleState.store sampleRecord).1 = false →
      (Library.RemoveFromLibrary sampleState.store sampleRecord).2 = sampleState.store) ∧
    ((Library.RemoveFromLibrary sampleState.store sampleRecord).1 = true →
      findRecord (Library.RemoveFromLibrary sampleState.store sampleRecord).2.media
        sampleRecord.filename = none ∧
      (Library.RemoveFromLibrary sampleState.store sampleRecord).2.media.length + 1 =
        sampleState.store.media.length) :=
  Library.removeFromLibrary_found_iff sampleState.store sampleRecord
    (by simp [sampleState, Library.pathsUnique, findRecord])

/-- C9: `HandlerFFmpeg::OpenDecoder` never propagates an exception: the
result is always an `Except.ok`, and when the `DecoderFFmpeg` construction
throws a runtime error the absorbed failure yields a null decoder pointer
(`none`). -/
theorem HandlerFFmpeg.openDecoder_absorbs_runtime_error
    (construct : String → HandlerFFmpeg.CtorResult) (filename : String) :
    (∃ r, HandlerFFmpeg.OpenDecoder construct filename = Except.ok r) ∧
    (construct filename = HandlerFFmpeg.CtorResult.throwsRuntimeError →
      HandlerFFmpeg.OpenDecoder construct filename = Except.ok none) := by
  constructor
  · cases hc : construct filename with
    | ok d => exact ⟨some d, by simp [HandlerFFmpeg.OpenDecoder, hc]⟩
    | throwsRuntimeError => exact ⟨none, by simp [HandlerFFmpeg.OpenDecoder, hc]⟩
  · intro hc
    simp [HandlerFFmpeg.OpenDecoder, hc]

/-- Concrete instance of the C9 theorem: a constructor that always throws a
runtime error yields a null decoder, not a propagated exception. -/
theorem HandlerFFmpeg.openDecoder_absorbs_runtime_error_witness :
    HandlerFFmpeg.OpenDecoder (fun _ => HandlerFFmpeg.CtorResult.throwsRuntimeError) "a.dat" =
      Except.ok none :=
  (HandlerFFmpeg.openDecoder_absorbs_runtime_error
    (fun _ => HandlerFFmpeg.CtorResult.throwsRuntimeError) "a.dat").2 rfl

/-- C10: in `WndList::OnEndLabelEdit`, a committed Track or Year edit whose
text `std::stol` cannot parse stores the value 0 into the updated media
info, and the edit still proceeds to the `UpdateMediaTags` call; the parse
failure is absorbed by the catch-all and never aborts the update. -/
theorem WndList.onEndLabelEdit_numeric_parse_failure
    (info : MediaRecord) (text : String)
    (hparse : WndList.stol text = none) :
    (WndList.OnEndLabelEdit info WndList.PlaylistColumn.track text).info =
      { info with track := 0 } ∧
    (WndList.OnEndLabelEdit info WndList.PlaylistColumn.track text).updateMediaTagsCalled
      = true ∧
    (WndList.OnEndLabelEdit info WndList.PlaylistColumn.year text).info =
      { info with year := 0 } ∧
    (WndList.OnEndLabelEdit info WndList.PlaylistColumn.year text).updateMediaTagsCalled
      = true := by
  refine ⟨?_, rfl, ?_, rfl⟩
  · simp [WndList.OnEndLabelEdit, hparse]
  · simp [WndList.OnEndLabelEdit, hparse]

/-- Concrete instance of the C10 theorem: editing the Track cell of the
sample record to the unparseable text "abc" stores track number 0 and still
reaches `UpdateMediaTags`. -/
theorem WndList.onEndLabelEdit_numeric_parse_failure_witness :
    (WndList.OnEndLabelEdit sampleRecord WndList.PlaylistColumn.track "abc").info =
      { sampleRecord with track := 0 } ∧
    (WndList.OnEndLabelEdit sampleRecord WndList.PlaylistColumn.track "abc").updateMediaTagsCalled
      = true ∧
    (WndList.OnEndLabelEdit sampleRecord WndList.PlaylistColumn.year "abc").info =
      { sampleRecord with year := 0 } ∧
    (WndList.OnEndLabelEdit sampleRecord WndList.PlaylistColumn.year "abc").updateMediaTagsCalled
      = true :=
  WndList.onEndLabelEdit_numeric_parse_failure sampleRecord "abc" (by decide)

/-- C2: `Library::AddArtwork` is content addressed: from a store that does
not yet hold the image, two calls with the same bytes return the same
identifier, the second call leaves the store unchanged, exactly one row is
added, and the at-most-one-copy-per-byte-sequence invariant (together with
the id-is-digest well-formedness that `AddArtwork` maintains) is
preserved. -/
theorem Library.addArtwork_content_addressed
    (s : MetadataStore) (image : List Nat)
    (hwf : Library.artworkWF s.artwork)
    (hone : ∀ img, Library.countImage s.artwork img ≤ 1)
    (hnew : Library.FindArtwork s.artwork image = none) :
    (Library.AddArtwork s image).1 =
      (Library.AddArtwork (Library.AddArtwork s image).2 image).1 ∧
    (Library.AddArtwork (Library.AddArtwork s image).2 image).2 =
      (Library.AddArtwork s image).2 ∧
    (Library.AddArtwork s image).2.artwork.length = s.artwork.length + 1 ∧
    Library.artworkWF (Library.AddArtwork s image).2.artwork ∧
    (∀ img, Library.countImage (Library.AddArtwork s image).2.artwork img ≤ 1) := by
  have h1 : Library.AddArtwork s image =
      (Library.artworkId image,
        { s with artwork :=
            s.artwork ++ [{ id := Library.artworkId image, image := image }] }) := by
    simp [Library.AddArtwork, hnew]
  have hfind2 := findArtwork_append_new s.artwork image hnew
  refine ⟨?_, ?_, ?_, ?_, ?_⟩
  · rw [h1]
    simp [Library.AddArtwork, hfind2]
  · rw [h1]
    simp [Library.AddArtwork, hfind2]
  · rw [h1]
    simp
  · rw [h1]
    simp only [Library.artworkWF]
    intro row hrow
    rcases List.mem_append.mp hrow with hmem | hmem
    · exact hwf row hmem
    · simp only [List.mem_singleton] at hmem
      subst hmem
      rfl
  · rw [h1]
    intro img
    show Library.countImage
        (s.artwork ++ [{ id := Library.artworkId image, image := image }]) img ≤ 1
    rw [countImage_append]
    rcases eq_or_ne image img with he | hne
    · subst he
      rw [countImage_zero_of_findArtwork_none s.artwork image hwf hnew]
      simp [Library.countImage]
    · have : Library.countImage [{ id := Library.artworkId image, image := image }] img
          = 0 := by
        simp [Library.countImage, hne]
      rw [this]
      simpa using hone img

/-- Concrete instance of the C2 theorem: the byte sequence `[1, 2, 3]`
added twice to an empty store. -/
theorem Library.addArtwork_content_addressed_witness :
    (Library.AddArtwork { media := [], artwork := [] } [1, 2, 3]).1 =
      (Library.AddArtwork
        (Library.AddArtwork { media := [], artwork := [] } [1, 2, 3]).2 [1, 2, 3]).1 ∧
    (Library.AddArtwork
        (Library.AddArtwork { media := [], artwork := [] } [1, 2, 3]).2 [1, 2, 3]).2 =
      (Library.AddArtwork { media := [], artwork := [] } [1, 2, 3]).2 ∧
    (Library.AddArtwork { media := [], artwork := [] } [1, 2, 3]).2.artwork.length =
      ({ media := [], artwork := [] } : MetadataStore).artwork.length + 1 ∧
    Library.artworkWF (Library.AddArtwork { media := [], artwork := [] } [1, 2, 3]).2.artwork ∧
    (∀ img,
      Library.countImage
        (Library.AddArtwork { media := [], artwork := [] } [1, 2, 3]).2.artwork img ≤ 1) :=
  Library.addArtwork_content_addressed { media := [], artwork := [] } [1, 2, 3]
    (fun row hrow => absurd hrow (List.not_mem_nil row))
    (fun img => by simp [Library.countImage])
    rfl

/-- C3: when the TagCodec file write fails, `Library::UpdateMediaTags` still
applies the MetadataStore row update, and the intended tag values (the
changed-field diff) stay queued and retrievable via `GetPendingTags` for
that filename. -/
theorem Library.updateMediaTags_file_write_failure
    (env : Env) (st : Library.LibraryState) (now : Int)
    (previous updated : MediaRecord)
    (hrow : findRecord st.store.media updated.filename = some previous)
    (hdiff : Library.diffTags previous updated ≠ Library.emptyTags)
    (hfail : env.tagWrite updated.filename (Library.diffTags previous updated) = false) :
    findRecord (Library.UpdateMediaTags env st now previous updated).store.media
        updated.filename =
      some (Library.applyTags previous (Library.diffTags previous updated)) ∧
    Library.GetPendingTags (Library.UpdateMediaTags env st now previous updated)
        updated.filename = some (Library.diffTags previous updated) := by
  have hpf : previous.filename = updated.filename := findRecord_filename st.store.media hrow
  have hname : (Library.applyTags previous (Library.diffTags previous updated)).filename
      = updated.filename := by
    simp [Library.applyTags, hpf]
  constructor
  · simp [Library.UpdateMediaTags, hdiff, hrow, hfail, Library.AddPendingTags,
      Library.SetRecentlyWrittenTag, findRecord_upsertRow _ _ _ hname]
  · simp [Library.UpdateMediaTags, hdiff, hrow, hfail, Library.AddPendingTags,
      Library.SetRecentlyWrittenTag, Library.GetPendingTags, assocLookup_assocUpsert_self]

/-- Concrete instance of the C3 theorem: a title edit of the sample record
whose file write fails in `failEnv`. -/
theorem Library.updateMediaTags_file_write_failure_witness :
    findRecord (Library.UpdateMediaTags failEnv sampleState 5 sampleRecord
        sampleUpdated).store.media sampleUpdated.filename =
      some (Library.applyTags sampleRecord (Library.diffTags sampleRecord sampleUpdated)) ∧
    Library.GetPendingTags (Library.UpdateMediaTags failEnv sampleState 5 sampleRecord
        sampleUpdated) sampleUpdated.filename =
      some (Library.diffTags sampleRecord sampleUpdated) :=
  Library.updateMediaTags_file_write_failure failEnv sampleState 5 sampleRecord sampleUpdated
    (by decide) (by decide) rfl

/-- C4: after `UpdateMediaTags(old, new)` where `new` differs from `old`
only in the Title field, a subsequent `GetMediaInfo` for that path returns
a record whose Title is the new one and whose every other field equals
`old`'s (only the diffed fields are written; all others are unchanged). -/
theorem Library.updateMediaTags_title_only_frame
    (env : Env) (st : Library.LibraryState) (now : Int)
    (old : MediaRecord) (newTitle : String)
    (hrow : findRecord st.store.media old.filename = some old) :
    (Library.GetMediaInfo env
        (Library.UpdateMediaTags env st now old { old with title := newTitle }).store
        old.filename false true true false).info = some { old with title := newTitle } := by
  by_cases hT : old.title = newTitle
  · have hdiff : Library.diffTags old { old with title := newTitle } = Library.emptyTags := by
      simp [Library.diffTags, Library.emptyTags, hT]
    have hstep : Library.UpdateMediaTags env st now old { old with title := newTitle } = st := by
      simp [Library.UpdateMediaTags, hdiff]
    have heq : ({ old with title := newTitle } : MediaRecord) = old := by
      rw [← hT]
    rw [hstep, heq]
    simp [Library.GetMediaInfo, hrow]
  · have hdiff : Library.diffTags old { old with title := newTitle } ≠ Library.emptyTags := by
      simp [Library.diffTags, Library.emptyTags, hT]
    have happly : Library.applyTags old (Library.diffTags old { old with title := newTitle })
        = { old with title := newTitle } := by
      simp [Library.applyTags, Library.diffTags, hT]
    cases hw : env.tagWrite old.filename (Library.diffTags old { old with title := newTitle }) with
    | true =>
      simp [Library.UpdateMediaTags, hdiff, hrow, hw, happly, Library.GetMediaInfo,
        Library.SetRecentlyWrittenTag, Library.AddPendingTags,
        findRecord_upsertRow st.store.media { old with title := newTitle } old.filename rfl]
    | false =>
      simp [Library.UpdateMediaTags, hdiff, hrow, hw, happly, Library.GetMediaInfo,
        Library.SetRecentlyWrittenTag, Library.AddPendingTags,
        findRecord_upsertRow st.store.media { old with title := newTitle } old.filename rfl]

/-- Concrete instance of the C4 theorem: the sample record's title edited
to "two" in the sample state under `failEnv`. -/
theorem Library.updateMediaTags_title_only_frame_witness :
    (Library.GetMediaInfo failEnv
        (Library.UpdateMediaTags failEnv sampleState 5 sampleRecord
          { sampleRecord with title := "two" }).store
        sampleRecord.filename false true true false).info =
      some { sampleRecord with title := "two" } :=
  Library.updateMediaTags_title_only_frame failEnv sampleState 5 sampleRecord "two" (by decide)

/-- C6: for a stored record whose file the probe cannot open,
`GetMediaInfo` with `removeMissing = true` deletes the stale row and emits
a removal notification, while `removeMissing = false` leaves the store
unchanged and returns the record marked not current. -/
theorem Library.getMediaInfo_missing_file
    (env : Env) (s : MetadataStore) (path : String) (rec : MediaRecord)
    (scanMedia sendNotification : Bool)
    (hrow : findRecord s.media path = some rec)
    (hprobe : env.probe path = none) :
    (Library.GetMediaInfo env s path true scanMedia sendNotification true).store.media
        = removeRows s.media path ∧
    findRecord
        (Library.GetMediaInfo env s path true scanMedia sendNotification true).store.media
        path = none ∧
    (Library.GetMediaInfo env s path true scanMedia sendNotification true).notifications
        = [Notification.removed rec] ∧
    (Library.GetMediaInfo env s path true scanMedia sendNotification false).store = s ∧
    (Library.GetMediaInfo env s path true scanMedia sendNotification false).info = some rec ∧
    (Library.GetMediaInfo env s path true scanMedia sendNotification false).current = false := by
  refine ⟨?_, ?_, ?_, ?_, ?_, ?_⟩ <;>
    simp [Library.GetMediaInfo, hrow, hprobe, findRecord_removeRows]

/-- Concrete instance of the C6 theorem: the sample record stored while the
probe reports the file unavailable. -/
theorem Library.getMediaInfo_missing_file_witness :
    (Library.GetMediaInfo
        { probe := fun _ => none, scan := fun _ => none, tagWrite := fun _ _ => false }
        sampleState.store "C:/a.mp3" true true true true).store.media
      = removeRows sampleState.store.media "C:/a.mp3" ∧
    findRecord
        (Library.GetMediaInfo
          { probe := fun _ => none, scan := fun _ => none, tagWrite := fun _ _ => false }
          sampleState.store "C:/a.mp3" true true true true).store.media
        "C:/a.mp3" = none ∧
    (Library.GetMediaInfo
        { probe := fun _ => none, scan := fun _ => none, tagWrite := fun _ _ => false }
        sampleState.store "C:/a.mp3" true true true true).notifications
      = [Notification.removed sampleRecord] ∧
    (Library.GetMediaInfo
        { probe := fun _ => none, scan := fun _ => none, tagWrite := fun _ _ => false }
        sampleState.store "C:/a.mp3" true true true false).store = sampleState.store ∧
    (Library.GetMediaInfo
        { probe := fun _ => none, scan := fun _ => none, tagWrite := fun _ _ => false }
        sampleState.store "C:/a.mp3" true true true false).info = some sampleRecord ∧
    (Library.GetMediaInfo
        { probe := fun _ => none, scan := fun _ => none, tagWrite := fun _ _ => false }
        sampleState.store "C:/a.mp3" true true true false).current = false :=
  Library.getMediaInfo_missing_file
    { probe := fun _ => none, scan := fun _ => none, tagWrite := fun _ _ => false }
    sampleState.store "C:/a.mp3" sampleRecord true true (by decide) rfl

/-- C7: the pending-tag-write queue keeps at most one entry per path (the
unique-keys invariant is preserved by any sequence of `AddPendingTags`
calls), and after any such sequence `GetPendingTags(path)` yields exactly
the most recently added tag set for that path (last write wins), falling
back to the prior queue content when the sequence never touched the
path. -/
theorem Library.pendingTags_last_write_wins
    (st : Library.LibraryState) (calls : List (String × Tags)) (path : String)
    (hu : Library.keysUnique st.pendingTags) :
    Library.keysUnique (Library.addAllPendingTags st calls).pendingTags ∧
    Library.GetPendingTags (Library.addAllPendingTags st calls) path =
      Library.orTake (Library.lastTagsFor path calls) (Library.GetPendingTags st path) :=
  ⟨keysUnique_addAllPendingTags calls st hu, getPendingTags_addAllPendingTags calls st path⟩

/-- Concrete instance of the C7 theorem: two successive pending edits for
the same path; the queue keeps unique keys and returns the second edit. -/
theorem Library.pendingTags_last_write_wins_witness :
    Library.keysUnique
      (Library.addAllPendingTags sampleState
        [("C:/a.mp3", tagsA), ("C:/a.mp3", tagsB)]).pendingTags ∧
    Library.GetPendingTags
        (Library.addAllPendingTags sampleState [("C:/a.mp3", tagsA), ("C:/a.mp3", tagsB)])
        "C:/a.mp3" =
      Library.orTake
        (Library.lastTagsFor "C:/a.mp3" [("C:/a.mp3", tagsA), ("C:/a.mp3", tagsB)])
        (Library.GetPendingTags sampleState "C:/a.mp3") :=
  Library.pendingTags_last_write_wins sampleState
    [("C:/a.mp3", tagsA), ("C:/a.mp3", tagsB)] "C:/a.mp3"
    (by simp [sampleState, Library.keysUnique])

/-- C1: with a fixed environment (the file on disk unchanged between the
calls), calling `GetMediaInfo` twice in a row with
`checkFileAttributes = true` performs zero store-write operations on the
second call and leaves the database state identical: once the first call
has made the record fresh (or left the store alone), the fast path is
idempotent with respect to store state. -/
theorem Library.getMediaInfo_unchanged_idempotent
    (env : Env) (s : MetadataStore) (path : String)
    (scanMedia sendNotification removeMissing : Bool) :
    (Library.GetMediaInfo env
        (Library.GetMediaInfo env s path true scanMedia sendNotification removeMissing).store
        path true scanMedia sendNotification removeMissing).storeWrites = 0 ∧
    (Library.GetMediaInfo env
        (Library.GetMediaInfo env s path true scanMedia sendNotification removeMissing).store
        path true scanMedia sendNotification removeMissing).store =
      (Library.GetMediaInfo env s path true scanMedia sendNotification removeMissing).store := by
  cases hfind : findRecord s.media path with
  | some rec =>
    cases hp : env.probe path with
    | none =>
      cases removeMissing with
      | true =>
        cases scanMedia with
        | true => simp [Library.GetMediaInfo, hfind, hp, findRecord_removeRows]
        | false => simp [Library.GetMediaInfo, hfind, hp, findRecord_removeRows]
      | false => simp [Library.GetMediaInfo, hfind, hp]
    | some ts =>
      obtain ⟨t, sz⟩ := ts
      by_cases hfresh : (t, sz) = (rec.filetime, rec.filesize)
      · simp [Library.GetMediaInfo, hfind, hp, hfresh]
      · cases scanMedia with
        | false => simp [Library.GetMediaInfo, hfind, hp, hfresh]
        | true =>
          cases hscan : env.scan path with
          | some data =>
            simp [Library.GetMediaInfo, hfind, hp, hfresh, hscan, findRecord_upsertRow]
          | none =>
            cases removeMissing with
            | true =>
              simp [Library.GetMediaInfo, hfind, hp, hfresh, hscan, findRecord_removeRows]
            | false =>
              simp [Library.GetMediaInfo, hfind, hp, hfresh, hscan]
  | none =>
    cases scanMedia with
    | false => simp [Library.GetMediaInfo, hfind]
    | true =>
      cases hp : env.probe path with
      | none => simp [Library.GetMediaInfo, hfind, hp]
      | some ts =>
        obtain ⟨t, sz⟩ := ts
        cases hscan : env.scan path with
        | none => simp [Library.GetMediaInfo, hfind, hp, hscan]
        | some data =>
          simp [Library.GetMediaInfo, hfind, hp, hscan, findRecord_upsertRow]
